import Mathlib

/-!
Verification of the stats aggregation, merge/dedup, and batched activity
collection core of the Stormlight clan backend
(`src/stormlight-backend/app/main.py`), as a shallow embedding in Lean 4.

External HTTP collaborators (the stats, ranking, roster and activity
endpoints) are modelled as explicit function/`Option` parameters: `none`
models a non-200 response or a transport failure, `some` a parsed 200
response.  Machine-level concerns (floats for epoch timestamps) are
modelled with `Int` seconds; Python strings with Lean `String`.
-/

/-! ## Python primitives used by the source

All string helpers are written by structural recursion over `String.data`
so that every definition evaluates by kernel reduction on concrete
inputs. -/

/-- ASCII whitespace as stripped by Python's `str.strip()`. -/
def isPyWhitespace (c : Char) : Bool :=
  c = ' ' || c = '\t' || c = '\n' || c = '\r' ||
    c = Char.ofNat 11 || c = Char.ofNat 12

/-- Model of Python's `str.strip()`. -/
def pyStrip (s : String) : String :=
  String.mk (((s.data.dropWhile isPyWhitespace).reverse.dropWhile
    isPyWhitespace).reverse)

/-- Model of Python's `str.lower()` (ASCII case folding). -/
def pyLower (s : String) : String := String.mk (s.data.map Char.toLower)

/-- Split a character list on a single separator character; Python's
`str.split(sep)` for the one-character separators the source uses. -/
def splitOnChar (sep : Char) : List Char → List (List Char)
  | [] => [[]]
  | c :: rest =>
    let r := splitOnChar sep rest
    if c = sep then [] :: r
    else
      match r with
      | [] => [[c]]
      | h :: t => (c :: h) :: t

/-- Python's `s.split(sep)` for a one-character separator. -/
def pySplit (s : String) (sep : Char) : List String :=
  (splitOnChar sep s.data).map String.mk

/-- Model of Python's `str.isdigit()` restricted to ASCII digits: nonempty
and all characters are digits (`"12bad34".isdigit() == False`). -/
def pyIsDigit (s : String) : Bool := s ≠ "" && s.data.all Char.isDigit

/-- Decimal value of an all-digit character list. -/
def charsToNat (acc : Nat) : List Char → Nat
  | [] => acc
  | c :: cs => charsToNat (acc * 10 + (c.toNat - 48)) cs

/-- Model of the source idiom `int(s) if s.isdigit() else 0`
(lines 448-449 of `main.py`). -/
def pyIntOr0 (s : String) : Int :=
  if pyIsDigit s then (charsToNat 0 s.data : Nat) else 0

/-- Python truthiness of an optional string (`if search:`): an absent or
empty string is falsy. -/
def pyTruthyStr : Option String → Option String
  | some s => if s = "" then none else some s
  | none => none

/-- One index of a Python slice `l[start:end]`: negative indices count from
the end, and indices are clamped to `[0, len]`. -/
def pySliceIdx (len : Nat) (i : Int) : Nat :=
  if i < 0 then ((len : Int) + i).toNat else min i.toNat len

/-- Model of the Python slice `l[s:e]`. -/
def pySlice (l : List α) (s e : Int) : List α :=
  let is := pySliceIdx l.length s
  let ie := pySliceIdx l.length e
  (l.drop is).take (ie - is)

/-- Insertion step of a stable sort with strict "comes before" test `lt`:
`x` is placed before the first element `y` with `lt y x = false`. -/
def pyInsert (lt : α → α → Bool) (x : α) : List α → List α
  | [] => [x]
  | y :: l => if lt y x then y :: pyInsert lt x l else x :: y :: l

/-- Functional model of Python's `list.sort(key=...)` (Timsort is stable;
a stable insertion sort is extensionally the same function). -/
def pySort (lt : α → α → Bool) : List α → List α
  | [] => []
  | x :: l => pyInsert lt x (pySort lt l)

/-- Model of `list.sort(key=key, reverse=True)`: stable, descending by an
integer key. -/
def sortDescBy (key : α → Int) (l : List α) : List α :=
  pySort (fun a b => decide (key b < key a)) l

/-- Lookup in a Python `dict` modelled as an insertion-ordered association
list (`d.get(k)` / `k in d`). -/
def dictGet : List (String × α) → String → Option α
  | [], _ => none
  | (k', v') :: rest, k => if k' = k then some v' else dictGet rest k

/-- Assignment `d[k] = v` on a Python `dict`: overwrite in place when the
key exists, else append. -/
def dictInsert : List (String × α) → String → α → List (String × α)
  | [], k, v => [(k, v)]
  | (k', v') :: rest, k, v =>
      if k' = k then (k, v) :: rest else (k', v') :: dictInsert rest k v

/-! ## Clan Roster Fetcher (`fetch_clan_members`, main.py lines 426-457) -/

/-- One clan roster member as built by `fetch_clan_members`. -/
structure RosterMember where
  username : String
  clan_rank : String
  total_xp : Int
  kills : Int
  last_updated : String
deriving DecidableEq

/-- The per-line loop of `fetch_clan_members` (main.py lines 438-451): a
blank line or a line with fewer than 4 comma-separated fields is skipped;
otherwise a member is appended, with `total_xp`/`kills` parsed by
`int(...) if ....isdigit() else 0`. -/
def rosterLoop (now : String) : List String → List RosterMember
  | [] => []
  | line :: rest =>
    if pyStrip line ≠ "" then
      let parts := pySplit line ','
      if parts.length ≥ 4 then
        { username := pyStrip (parts.getD 0 ""),
          clan_rank := pyStrip (parts.getD 1 ""),
          total_xp := pyIntOr0 (parts.getD 2 ""),
          kills := pyIntOr0 (parts.getD 3 ""),
          last_updated := now } :: rosterLoop now rest
      else rosterLoop now rest
    else rosterLoop now rest

/-- `fetch_clan_members` (main.py lines 426-457): on a 200 response the
body is split into lines, the header line is discarded and the remaining
lines are parsed by `rosterLoop`; a non-200 response or an exception
yields `[]`. -/
def fetch_clan_members (resp : Option String) (now : String) : List RosterMember :=
  match resp with
  | some content => rosterLoop now ((pySplit (pyStrip content) '\n').drop 1)
  | none => []

/-! ## Stats Fetcher (`fetch_player_stats`, main.py lines 67-125) -/

/-- One skill record as stored in `stats[skill_name]` (main.py lines
83-87 and 94-98): `rank` optional, `level` and `xp` integers. -/
structure SkillRecord where
  rank : Option Int
  level : Int
  xp : Int
deriving DecidableEq

/-- A cache entry built by `fetch_player_stats` (main.py lines 109-113):
display username (`data.get('name', username)`) and the per-skill dict.
The `last_updated` wall-clock field is irrelevant to every claim and is
omitted from the record. -/
structure PlayerStats where
  username : String
  stats : List (String × SkillRecord)
deriving DecidableEq

/-- One element of the Runemetrics `skillvalues` array; each field models
`skill_data.get(...)` with `none` for an absent key. -/
structure SkillValue where
  id : Option Int
  rank : Option Int
  level : Option Int
  xp : Option Int
deriving DecidableEq

/-- A parsed 200-response of the Runemetrics profile endpoint, with
exactly the fields `fetch_player_stats` reads. -/
structure RMProfile where
  hasError : Bool
  rank : Option String
  totalskill : Option Int
  totalxp : Option Int
  skillvalues : List SkillValue
  name : Option String
deriving DecidableEq

/-- `RUNEMETRICS_SKILL_MAPPING` (main.py lines 59-65). -/
def RUNEMETRICS_SKILL_MAPPING : List (Int × String) :=
  [(0, "attack"), (1, "defence"), (2, "strength"), (3, "constitution"),
   (4, "ranged"), (5, "prayer"), (6, "magic"), (7, "cooking"),
   (8, "woodcutting"), (9, "fletching"), (10, "fishing"), (11, "firemaking"),
   (12, "crafting"), (13, "smithing"), (14, "mining"), (15, "herblore"),
   (16, "agility"), (17, "thieving"), (18, "slayer"), (19, "farming"),
   (20, "runecrafting"), (21, "hunter"), (22, "construction"),
   (23, "summoning"), (24, "dungeoneering"), (25, "divination"),
   (26, "invention"), (27, "archaeology"), (28, "necromancy")]

/-- `RUNEMETRICS_SKILL_MAPPING.get(skill_id)`. -/
def rmSkillName (i : Int) : Option String :=
  (RUNEMETRICS_SKILL_MAPPING.find? (fun p => p.1 = i)).map Prod.snd

/-- `['overall'] + list(RUNEMETRICS_SKILL_MAPPING.values())`
(main.py line 100). -/
def all_skills : List String :=
  "overall" :: RUNEMETRICS_SKILL_MAPPING.map Prod.snd

/-- `s.replace(',', '')` on the overall rank string. -/
def stripCommas (s : String) : String := String.mk (s.data.filter (· ≠ ','))

/-- The overall `rank` expression of main.py line 84:
`int(data.get('rank', '0').replace(',', '')) if data.get('rank') and
data.get('rank') != '0' else None`.  `pyInt` models Python's `int(...)` on
the comma-stripped string; its `none` models a raised `ValueError`, which
the enclosing `except` of `fetch_player_stats` turns into a `None` result,
so the outer `Option` is the exception channel. -/
def parseOverallRank (pyInt : String → Option Int) (rk : Option String) :
    Option (Option Int) :=
  match rk with
  | none => some none
  | some s =>
      if s = "" ∨ s = "0" then some none
      else (pyInt (stripCommas s)).map some

/-- The `skillvalues` loop of main.py lines 89-98, threading the `stats`
dict. -/
def skillvaluesLoop (acc : List (String × SkillRecord)) :
    List SkillValue → List (String × SkillRecord)
  | [] => acc
  | sv :: rest =>
      match sv.id.bind rmSkillName with
      | some nm =>
          skillvaluesLoop
            (dictInsert acc nm ⟨sv.rank, sv.level.getD 1, sv.xp.getD 0⟩) rest
      | none => skillvaluesLoop acc rest

/-- The placeholder-filling loop of main.py lines 100-107: every catalog
skill absent from `stats` is set to `{rank: None, level: 1, xp: 0}`. -/
def fillMissingSkills (acc : List (String × SkillRecord)) :
    List String → List (String × SkillRecord)
  | [] => acc
  | nm :: rest =>
      match dictGet acc nm with
      | some _ => fillMissingSkills acc rest
      | none => fillMissingSkills (dictInsert acc nm ⟨none, 1, 0⟩) rest

/-- `fetch_player_stats` (main.py lines 67-125): `resp = none` models a
non-200 status or a transport failure (both return `None`); on a 200
response with an `error` key the result is `None`; otherwise the stats
dict is built from `overall`, the `skillvalues` entries and the
placeholder fill, and returned with the display username
`data.get('name', username)`.  The write-through to the
`player_stats_cache` stores exactly the returned value and is not
modelled separately. -/
def fetch_player_stats (pyInt : String → Option Int) (username : String)
    (resp : Option RMProfile) : Option PlayerStats :=
  match resp with
  | none => none
  | some data =>
    if data.hasError then none
    else
      match parseOverallRank pyInt data.rank with
      | none => none
      | some orank =>
        let stats0 : List (String × SkillRecord) :=
          [("overall", ⟨orank, data.totalskill.getD 0, data.totalxp.getD 0⟩)]
        let stats1 := skillvaluesLoop stats0 data.skillvalues
        let stats2 := fillMissingSkills stats1 all_skills
        some ⟨data.name.getD username, stats2⟩

/-! ## Discovery Ledger and Ranking Fetcher (`fetch_top_players`,
main.py lines 127-159) -/

/-- One entry of `discovered_players_db` (main.py lines 147-151 and
322-326); the `source` strings used by the code are `"ranking_api"` and
`"search"`, realizing the spec's `enum{ranking, search}`. -/
structure DiscoveryRecord where
  username : String
  discovered_at : Int
  source : String
deriving DecidableEq

/-- The Discovery Ledger: `discovered_players_db`, a Python dict keyed by
lower-cased username. -/
abbrev DiscoveryDB := List (String × DiscoveryRecord)

/-- The loop of `fetch_top_players` over `data[:5]` (main.py lines
141-151): each name is resolved through the Stats Fetcher (abstracted as
`statsOf`); on success the stats are appended in feed order and the
Discovery Ledger entry at the lower-cased name is written with source
`"ranking_api"`. -/
def rankingLoop (statsOf : String → Option PlayerStats) (now : Int) :
    List String → DiscoveryDB → List PlayerStats × DiscoveryDB
  | [], db => ([], db)
  | u :: rest, db =>
    match statsOf u with
    | some st =>
        let db1 := dictInsert db (pyLower u) ⟨u, now, "ranking_api"⟩
        let r := rankingLoop statsOf now rest db1
        (st :: r.1, r.2)
    | none => rankingLoop statsOf now rest db

/-- `fetch_top_players` (main.py lines 127-159): `respData = none` models
a non-200 ranking response or an exception (result `[]`, ledger
untouched); otherwise only the first 5 feed entries are resolved, in feed
order, with no re-sort. -/
def fetch_top_players (statsOf : String → Option PlayerStats) (now : Int)
    (respData : Option (List String)) (db : DiscoveryDB) :
    List PlayerStats × DiscoveryDB :=
  match respData with
  | none => ([], db)
  | some data => rankingLoop statsOf now (data.take 5) db

/-! ## Merge & Paginate Engine (`get_global_hiscores`,
main.py lines 305-353) -/

/-- The loop of main.py lines 330-335 over `discovered_players_db.items()`:
an entry whose key is among the lower-cased usernames of the ranking
result is skipped; otherwise its stored username is re-resolved through
the Stats Fetcher and kept only when the target skill is present in the
returned stats dict. -/
def discoveredLoop (statsOf : String → Option PlayerStats) (skill : String)
    (topLowers : List String) : DiscoveryDB → List PlayerStats
  | [] => []
  | kv :: rest =>
    if topLowers.contains kv.1 then discoveredLoop statsOf skill topLowers rest
    else
      match statsOf kv.2.username with
      | some st =>
          if (dictGet st.stats skill).isSome
          then st :: discoveredLoop statsOf skill topLowers rest
          else discoveredLoop statsOf skill topLowers rest
      | none => discoveredLoop statsOf skill topLowers rest

/-- The merged, pre-pagination list of `get_global_hiscores` (main.py
lines 328-337): the ranking result followed by the discovery-resolved
players that pass the dedup check, together with the updated Discovery
Ledger. -/
def hiscoresMerged (statsOf : String → Option PlayerStats) (now : Int)
    (rankingData : Option (List String)) (db : DiscoveryDB) (skill : String) :
    List PlayerStats × DiscoveryDB :=
  let r := fetch_top_players statsOf now rankingData db
  let topLowers := r.1.map (fun p => pyLower p.username)
  (r.1 ++ discoveredLoop statsOf skill topLowers r.2, r.2)

/-- The sort key of main.py line 338:
`x['stats'].get(skill, {}).get('xp', 0)`. -/
def skillXp (skill : String) (p : PlayerStats) : Int :=
  match dictGet p.stats skill with
  | some r => r.xp
  | none => 0

/-- The pagination slice of main.py lines 340-342:
`all_players[(page-1)*limit : (page-1)*limit + limit]`. -/
def hiscoresPaginate (sorted : List PlayerStats) (page L : Int) :
    List PlayerStats :=
  pySlice sorted ((page - 1) * L) ((page - 1) * L + L)

/-- The `has_next` expression of main.py line 350:
`len(players) == limit`. -/
def hiscoresHasNext (players : List PlayerStats) (L : Int) : Bool :=
  (players.length : Int) == L

/-- The response of `get_global_hiscores` (main.py lines 344-353). -/
structure HiscoresPage where
  hiscores : List PlayerStats
  page : Int
  limit : Int
  total_players : Int
  has_next : Bool
  skill : String
deriving DecidableEq

/-- `get_global_hiscores` (main.py lines 305-353), returning the response
together with the final Discovery Ledger.  A truthy `search` bypasses the
merge: the single username is fetched, recorded with source `"search"` on
success, and returned as the whole page; otherwise the merged list is
sorted by the target skill's xp descending (stable) and sliced. -/
def get_global_hiscores (pyInt : String → Option Int)
    (statsOf : String → Option PlayerStats) (now : Int)
    (rankingData : Option (List String)) (searchResp : Option RMProfile)
    (db : DiscoveryDB) (skill : String) (page limit : Int)
    (search : Option String) : HiscoresPage × DiscoveryDB :=
  let L := if limit = 15 ∨ limit = 30 ∨ limit = 50 then limit else 15
  match pyTruthyStr search with
  | some s =>
      match fetch_player_stats pyInt s searchResp with
      | some st =>
          let players := [st]
          let db1 := dictInsert db (pyLower s) ⟨s, now, "search"⟩
          (⟨players, page, L, (db1.length : Int) + 50,
             hiscoresHasNext players L, skill⟩, db1)
      | none =>
          (⟨[], page, L, (db.length : Int) + 50,
             hiscoresHasNext [] L, skill⟩, db)
  | none =>
      let m := hiscoresMerged statsOf now rankingData db skill
      let sorted := sortDescBy (skillXp skill) m.1
      let players := hiscoresPaginate sorted page L
      (⟨players, page, L, (m.2.length : Int) + 50,
         hiscoresHasNext players L, skill⟩, m.2)

/-! ## Clan members pagination (`get_clan_members_paginated`,
main.py lines 477-512) -/

/-- `get_rank_priority` (main.py lines 459-475). -/
def get_rank_priority (rank : String) : Int :=
  match rank with
  | "Owner" => 1
  | "Deputy Owner" => 2
  | "Overseer" => 3
  | "Coordinator" => 4
  | "Organiser" => 5
  | "Admin" => 6
  | "General" => 7
  | "Captain" => 8
  | "Lieutenant" => 9
  | "Sergeant" => 10
  | "Corporal" => 11
  | "Recruit" => 12
  | _ => 999

/-- `needle in haystack` on lists of characters (Python's substring
test). -/
def charsHasPre : List Char → List Char → Bool
  | [], _ => true
  | _ :: _, [] => false
  | c :: cs, d :: ds => c == d && charsHasPre cs ds

/-- Python's `needle in haystack` for strings. -/
def pyInStr (needle hay : String) : Bool := go needle.data hay.data
where
  go (n : List Char) : List Char → Bool
    | [] => n.isEmpty
    | d :: ds => charsHasPre n (d :: ds) || go n ds

/-- The ascending sort test of main.py line 497:
`key=lambda x: (get_rank_priority(x['clan_rank']), x['username'])`. -/
def rankUserKeyLt (a b : RosterMember) : Bool :=
  decide (get_rank_priority a.clan_rank < get_rank_priority b.clan_rank) ||
    (decide (get_rank_priority a.clan_rank = get_rank_priority b.clan_rank) &&
     decide (a.username < b.username))

/-- The response of `get_clan_members_paginated` (main.py lines
503-512). -/
structure MembersPage where
  members : List RosterMember
  page : Int
  limit : Int
  total_members : Int
  has_next : Bool
deriving DecidableEq

/-- The filter/sort/slice pipeline of `get_clan_members_paginated`
(main.py lines 485-512) applied to an already-fetched roster. -/
def membersPagination (members0 : List RosterMember) (page limit : Int)
    (search : Option String) (sort_by : String) : MembersPage :=
  let L := if limit = 15 ∨ limit = 30 ∨ limit = 50 then limit else 15
  let members1 :=
    match pyTruthyStr search with
    | some s => members0.filter (fun m => pyInStr (pyLower s) (pyLower m.username))
    | none => members0
  let members2 :=
    if sort_by = "xp" then sortDescBy (fun m => m.total_xp) members1
    else pySort rankUserKeyLt members1
  let s := (page - 1) * L
  let e := s + L
  ⟨pySlice members2 s e, page, L, (members2.length : Int),
    decide (e < (members2.length : Int))⟩

/-- `get_clan_members_paginated` (main.py lines 477-512): the roster comes
from `fetch_clan_members`, then `membersPagination`. -/
def get_clan_members_paginated (rosterResp : Option String) (now : String)
    (page limit : Int) (search : Option String) (sort_by : String) :
    MembersPage :=
  membersPagination (fetch_clan_members rosterResp now) page limit search sort_by

/-! ## Batched Activity Collector (`get_clan_activities`,
main.py lines 589-691) -/

/-- One element of the Runemetrics `activities` array. -/
structure RawActivity where
  date : String
  text : String
  details : String
deriving DecidableEq

/-- One collected activity event (main.py lines 625-631). -/
structure ActivityEvent where
  username : String
  text : String
  details : String
  date : String
  timestamp : Int
deriving DecidableEq

/-- `twelve_weeks_ago = datetime.now().timestamp() - (12*7*24*60*60)`
(main.py line 617), with epoch seconds as `Int`. -/
def twelve_weeks_ago (now : Int) : Int := now - (12 * 7 * 24 * 60 * 60)

/-- The per-activity loop of main.py lines 619-634: the date string is
parsed (`parseTs` abstracts `datetime.strptime(..., '%d-%b-%Y %H:%M')`
composed with `.timestamp()`; `none` models a raised `ValueError`, caught
per activity); a parsed event is kept iff its timestamp is at least the
12-week cutoff. -/
def activityLoop (parseTs : String → Option Int) (cutoff : Int)
    (username : String) : List RawActivity → List ActivityEvent
  | [] => []
  | a :: rest =>
    match parseTs a.date with
    | some ts =>
        if cutoff ≤ ts
        then ⟨username, a.text, a.details, a.date, ts⟩ ::
               activityLoop parseTs cutoff username rest
        else activityLoop parseTs cutoff username rest
    | none => activityLoop parseTs cutoff username rest

/-- `fetch_member_activities` (main.py lines 604-642): a non-200 response
or an exception yields `[]`; a 200 response yields the window-filtered
events of that member. -/
def fetch_member_activities (parseTs : String → Option Int) (now : Int)
    (resp : Option (List RawActivity)) (username : String) :
    List ActivityEvent :=
  match resp with
  | none => []
  | some acts => activityLoop parseTs (twelve_weeks_ago now) username acts

/-- `members[i:i + batch_size]` chunking with `batch_size = 20`
(main.py lines 645-646). -/
def batchesOf20 : List α → List (List α)
  | [] => []
  | x :: xs => (x :: xs).take 20 :: batchesOf20 ((x :: xs).drop 20)
termination_by l => l.length
decreasing_by simp; omega

/-- The response of `get_clan_activities` (main.py lines 669-677 and
683-691). -/
structure ActPage where
  activities : List ActivityEvent
  page : Int
  limit : Int
  total_activities : Int
  has_next : Bool
deriving DecidableEq

/-- The `try`-body of `get_clan_activities` (main.py lines 596-677): the
roster is chunked into batches of 20; within a batch every member's fetch
is issued concurrently and the batch joins on all of them
(`asyncio.gather(..., return_exceptions=True)`), so the collected list is
the in-order concatenation of the per-member results; the inter-batch
`asyncio.sleep(0.2)` has no functional effect.  The events are then
sorted by timestamp descending (stable) and sliced. -/
def clanActivitiesPipeline (parseTs : String → Option Int) (now : Int)
    (actResp : String → Option (List RawActivity))
    (members : List RosterMember) (page limit : Int) : ActPage :=
  let all_activities :=
    (batchesOf20 members).foldl
      (fun acc batch =>
        (batch.map (fun m =>
          fetch_member_activities parseTs now (actResp m.username) m.username)).foldl
          (fun a r => a ++ r) acc) []
  let sorted := sortDescBy (fun a => a.timestamp) all_activities
  let s := (page - 1) * limit
  let e := s + limit
  ⟨pySlice sorted s e, page, limit, (all_activities.length : Int),
    decide (e < (all_activities.length : Int))⟩

/-- `get_clan_activities` (main.py lines 589-691): the whole pipeline runs
under a catch-all `except` that degrades any unhandled exception to the
empty response `{activities: [], page: 1, limit, total: 0,
has_next: False}`.  The `Except` argument is the outcome of the `try`
body. -/
def get_clan_activities (limit : Int) (pipeline : Except String ActPage) :
    ActPage :=
  match pipeline with
  | Except.ok r => r
  | Except.error _ => ⟨[], 1, limit, 0, false⟩

/-- A concrete date parser for the witness of `activity_window_filter`:
`"bad"` fails to parse, `"old"` is 12 weeks and 1 second before now = 0,
`"recent"` is 11 weeks before now = 0. -/
def witnessParseTs : String → Option Int
  | "bad" => none
  | "old" => some (-7257601)
  | "recent" => some (-6652800)
  | _ => some 0

/-- Stats Fetcher stub for the `ranking_fetcher_first5` witness: every
username resolves except `"B"`. -/
def c5api : String → Option PlayerStats
  | "B" => none
  | u => some ⟨u, []⟩

/-- Same as `c5api` except at `"F"`, the sixth feed entry. -/
def c5apiAlt : String → Option PlayerStats
  | "B" => none
  | "F" => none
  | u => some ⟨u, []⟩

/-- Concrete Stats Fetcher for the end-to-end merge scenario of C3:
ranking players A, B, C with attack xp 100, 300, 200 and discovered
player D with attack xp 250. -/
def c3api : String → Option PlayerStats
  | "A" => some ⟨"A", [("attack", ⟨none, 1, 100⟩)]⟩
  | "B" => some ⟨"B", [("attack", ⟨none, 1, 300⟩)]⟩
  | "C" => some ⟨"C", [("attack", ⟨none, 1, 200⟩)]⟩
  | "D" => some ⟨"D", [("attack", ⟨none, 1, 250⟩)]⟩
  | _ => none

/-- Discovery Ledger for the C3 scenario: D was previously discovered via
search. -/
def c3db : DiscoveryDB := [("d", ⟨"D", 0, "search"⟩)]

/-- The Discovery Ledger normalization invariant of the spec (section 3):
keys are distinct and each key is the lower-cased username of its
record. -/
def ledgerNormalized (db : DiscoveryDB) : Prop :=
  (db.map Prod.fst).Nodup ∧ ∀ kv ∈ db, kv.1 = pyLower kv.2.username

/-- The property C2 asserts of the merged pre-pagination list: no
username appears twice after lower-casing. -/
def nodupLowerNames (l : List PlayerStats) : Prop :=
  (l.map (fun p => pyLower p.username)).Nodup

/-- Stats Fetcher for the C2 counterexample: only `"A"` resolves. -/
def c2api : String → Option PlayerStats
  | "A" => some ⟨"A", [("overall", ⟨none, 1, 0⟩)]⟩
  | _ => none

/-- A Stats Fetcher that resolves every name, preserving its casing, for
the `merged_no_dup_usernames` witness. -/
def c2wapi : String → Option PlayerStats :=
  fun u => some ⟨u, [("overall", ⟨none, 1, 0⟩)]⟩

/-- A 200-response with no fields set: no `error` key, no rank, no
`totalskill`/`totalxp`, empty `skillvalues`. -/
def rEmptyProfile : RMProfile := ⟨false, none, none, none, [], none⟩

/-- The claim C9 asserts of every record: `level ≥ 1 ∧ xp ≥ 0`. -/
def statsLevelsOk (ps : PlayerStats) : Bool :=
  ps.stats.all (fun kv => decide (1 ≤ kv.2.level) && decide (0 ≤ kv.2.xp))

/-- Well-formed profile for the `stats_records_normalized` witness:
`totalskill = 2000`, `totalxp = 100`, one skillvalue for id 0
(= attack). -/
def wProfile : RMProfile :=
  ⟨false, some "1,234", some 2000, some 100,
    [⟨some 0, some 5, some 99, some 400⟩], some "Player"⟩

/-- The concrete result of `fetch_player_stats` on `wProfile`. -/
def wPs : PlayerStats :=
  (fetch_player_stats (fun _ => some 1234) "x" (some wProfile)).getD ⟨"", []⟩

/-- The concrete result of `fetch_player_stats` on the malformed (but
successful) `rEmptyProfile`. -/
def rEmptyPs : PlayerStats :=
  (fetch_player_stats (fun _ => none) "x" (some rEmptyProfile)).getD ⟨"", []⟩

/-! # Theorems -/

theorem rosterLoop_append (now : String) (l1 l2 : List String) :
    rosterLoop now (l1 ++ l2) = rosterLoop now l1 ++ rosterLoop now l2 := by
  induction l1 with
  | nil => simp [rosterLoop]
  | cons line rest ih =>
    by_cases hb : pyStrip line ≠ ""
    · by_cases hp : (pySplit line ',').length ≥ 4
      · simp [rosterLoop, hb, hp, ih]
      · simp [rosterLoop, hb, hp, ih]
    · simp [rosterLoop, hb, ih]

theorem rosterLoop_cons_skip (now : String) (bad : String) (l : List String)
    (h : pyStrip bad = "" ∨ (pySplit bad ',').length < 4) :
    rosterLoop now (bad :: l) = rosterLoop now l := by
  by_cases hb : pyStrip bad = ""
  · simp [rosterLoop, hb]
  · have hlen : ¬ ((pySplit bad ',').length ≥ 4) := by
      rcases h with h | h
      · exact absurd h hb
      · omega
    simp [rosterLoop, hb, hlen]

theorem rosterLoop_cons_keep (now : String) (line : String) (l : List String)
    (p0 p1 p2 p3 : String) (ps : List String)
    (hsplit : pySplit line ',' = p0 :: p1 :: p2 :: p3 :: ps)
    (hnb : pyStrip line ≠ "") :
    rosterLoop now (line :: l) =
      { username := pyStrip p0, clan_rank := pyStrip p1,
        total_xp := pyIntOr0 p2, kills := pyIntOr0 p3,
        last_updated := now } :: rosterLoop now l := by
  simp only [rosterLoop]
  rw [if_pos hnb]
  simp only [hsplit]
  rw [if_pos (show (p0 :: p1 :: p2 :: p3 :: ps).length ≥ 4 by simp)]
  simp [List.getD]

/-- **C1** (amended).  In `fetch_clan_members`, a roster line is skipped
individually exactly when it is blank or has fewer than 4 comma-separated
fields; a line with at least 4 fields is always retained — a non-numeric
XP or kill-count field does not cause a skip but is coerced to 0
(`int(parts[i]) if parts[i].isdigit() else 0`) — and in both cases every
sibling line is processed exactly as it would be without the line. -/
theorem clan_roster_line_handling (now : String) (l1 l2 : List String) :
    (∀ bad, (pyStrip bad = "" ∨ (pySplit bad ',').length < 4) →
      rosterLoop now (l1 ++ bad :: l2) = rosterLoop now (l1 ++ l2))
    ∧ (∀ line p0 p1 p2 p3 ps, pySplit line ',' = p0 :: p1 :: p2 :: p3 :: ps →
        pyStrip line ≠ "" →
        rosterLoop now (l1 ++ line :: l2) =
          rosterLoop now l1 ++
            ({ username := pyStrip p0, clan_rank := pyStrip p1,
               total_xp := pyIntOr0 p2, kills := pyIntOr0 p3,
               last_updated := now } : RosterMember) :: rosterLoop now l2) := by
  constructor
  · intro bad hbad
    rw [rosterLoop_append, rosterLoop_append, rosterLoop_cons_skip now bad l2 hbad]
  · intro line p0 p1 p2 p3 ps hsplit hnb
    rw [rosterLoop_append, rosterLoop_cons_keep now line l2 p0 p1 p2 p3 ps hsplit hnb]

/-- Witness for `clan_roster_line_handling` at concrete lines: the
3-field line `",,"` is skipped while its siblings survive, and the
well-formed line `"Alice,Owner,100,5"` is retained in place. -/
theorem clan_roster_line_handling_witness :
    (rosterLoop "t0" (["x,y,z,1"] ++ ",," :: ["q,r,s,2"]) =
      rosterLoop "t0" (["x,y,z,1"] ++ ["q,r,s,2"]))
    ∧ (rosterLoop "t0" (["x,y,z,1"] ++ "Alice,Owner,100,5" :: ["q,r,s,2"]) =
        rosterLoop "t0" ["x,y,z,1"] ++
          ({ username := "Alice", clan_rank := "Owner", total_xp := 100,
             kills := 5, last_updated := "t0" } : RosterMember) ::
            rosterLoop "t0" ["q,r,s,2"]) := by
  refine ⟨(clan_roster_line_handling "t0" ["x,y,z,1"] ["q,r,s,2"]).1 ",," (by decide), ?_⟩
  have h := (clan_roster_line_handling "t0" ["x,y,z,1"] ["q,r,s,2"]).2
    "Alice,Owner,100,5" "Alice" "Owner" "100" "5" [] (by decide) (by decide)
  rw [h]
  decide

/-- **C1** counterexample to the claim as stated: in the roster response
below, Bob's line has the non-numeric XP field `"12bad34"`, yet
`fetch_clan_members` retains Bob (with `total_xp` coerced to 0) instead of
skipping the line. -/
theorem clan_roster_nonnumeric_line_retained :
    fetch_clan_members
      (some "Clanmate, Clan Rank, Total XP, Kills\nAlice,Owner,100,5\nBob,Recruit,12bad34,7")
      "t0" =
      [{ username := "Alice", clan_rank := "Owner", total_xp := 100,
         kills := 5, last_updated := "t0" },
       { username := "Bob", clan_rank := "Recruit", total_xp := 0,
         kills := 7, last_updated := "t0" }] := by
  decide

theorem activityLoop_append (parseTs : String → Option Int) (cutoff : Int)
    (u : String) (l1 l2 : List RawActivity) :
    activityLoop parseTs cutoff u (l1 ++ l2) =
      activityLoop parseTs cutoff u l1 ++ activityLoop parseTs cutoff u l2 := by
  induction l1 with
  | nil => simp [activityLoop]
  | cons a rest ih =>
    cases h : parseTs a.date with
    | none => simp [activityLoop, h, ih]
    | some ts => by_cases hc : cutoff ≤ ts <;> simp [activityLoop, h, hc, ih]

/-- **C4**.  The Batched Activity Collector keeps a parsed event exactly
when its timestamp is at least `now - 12*7*24*60*60`: an event whose date
parses to 12 weeks and 1 second before now is excluded, one parsing to 11
weeks before now is included, and an event whose date fails to parse is
dropped individually, leaving the member's other events untouched. -/
theorem activity_window_filter (parseTs : String → Option Int) (now : Int)
    (u : String) :
    (∀ (l1 l2 : List RawActivity) (bad : RawActivity), parseTs bad.date = none →
      activityLoop parseTs (twelve_weeks_ago now) u (l1 ++ bad :: l2) =
        activityLoop parseTs (twelve_weeks_ago now) u (l1 ++ l2))
    ∧ (∀ (a : RawActivity) (ts : Int), parseTs a.date = some ts →
        fetch_member_activities parseTs now (some [a]) u =
          (if now - 12 * 7 * 24 * 60 * 60 ≤ ts
           then [⟨u, a.text, a.details, a.date, ts⟩] else []))
    ∧ (∀ a : RawActivity, parseTs a.date = some (now - (12 * 7 * 24 * 60 * 60 + 1)) →
        fetch_member_activities parseTs now (some [a]) u = [])
    ∧ (∀ a : RawActivity, parseTs a.date = some (now - 11 * 7 * 24 * 60 * 60) →
        fetch_member_activities parseTs now (some [a]) u =
          [⟨u, a.text, a.details, a.date, now - 11 * 7 * 24 * 60 * 60⟩]) := by
  have hsingle : ∀ (a : RawActivity) (ts : Int), parseTs a.date = some ts →
      fetch_member_activities parseTs now (some [a]) u =
        (if now - 12 * 7 * 24 * 60 * 60 ≤ ts
         then [⟨u, a.text, a.details, a.date, ts⟩] else []) := by
    intro a ts h
    simp only [fetch_member_activities, activityLoop, h, twelve_weeks_ago]
  refine ⟨?_, hsingle, ?_, ?_⟩
  · intro l1 l2 bad hbad
    rw [activityLoop_append, activityLoop_append]
    simp [activityLoop, hbad]
  · intro a h
    rw [hsingle a _ h]
    rw [if_neg (by omega : ¬ (now - 12 * 7 * 24 * 60 * 60 ≤ now - (12 * 7 * 24 * 60 * 60 + 1)))]
  · intro a h
    rw [hsingle a _ h]
    rw [if_pos (by omega : now - 12 * 7 * 24 * 60 * 60 ≤ now - 11 * 7 * 24 * 60 * 60)]

/-- Witness for `activity_window_filter` at `now = 0`: the unparseable
`"bad"` event is dropped while its sibling survives, the 12-weeks-and-1-
second-old event is excluded, and the 11-weeks-old event is included. -/
theorem activity_window_filter_witness :
    (activityLoop witnessParseTs (twelve_weeks_ago 0) "m"
        ([⟨"recent", "t1", "d1"⟩] ++ ⟨"bad", "t2", "d2"⟩ :: []) =
      activityLoop witnessParseTs (twelve_weeks_ago 0) "m"
        ([⟨"recent", "t1", "d1"⟩] ++ []))
    ∧ fetch_member_activities witnessParseTs 0 (some [⟨"old", "t", "d"⟩]) "m" = []
    ∧ fetch_member_activities witnessParseTs 0 (some [⟨"recent", "t", "d"⟩]) "m" =
        [⟨"m", "t", "d", "recent", 0 - 11 * 7 * 24 * 60 * 60⟩] := by
  refine ⟨(activity_window_filter witnessParseTs 0 "m").1
            [⟨"recent", "t1", "d1"⟩] [] ⟨"bad", "t2", "d2"⟩ (by decide), ?_, ?_⟩
  · exact (activity_window_filter witnessParseTs 0 "m").2.2.1
      ⟨"old", "t", "d"⟩ (by decide)
  · exact (activity_window_filter witnessParseTs 0 "m").2.2.2
      ⟨"recent", "t", "d"⟩ (by decide)

theorem dictGet_dictInsert_self (d : List (String × α)) (k : String) (v : α) :
    dictGet (dictInsert d k v) k = some v := by
  induction d with
  | nil => simp [dictInsert, dictGet]
  | cons kv rest ih =>
    by_cases h : kv.1 = k
    · simp [dictInsert, dictGet, h]
    · simp [dictInsert, dictGet, h, ih]

theorem dictGet_dictInsert_ne (d : List (String × α)) (k k' : String) (v : α)
    (h : k' ≠ k) : dictGet (dictInsert d k v) k' = dictGet d k' := by
  have h' : ¬ k = k' := fun e => h e.symm
  induction d with
  | nil => simp [dictInsert, dictGet, h']
  | cons kv rest ih =>
    by_cases hk : kv.1 = k
    · simp [dictInsert, dictGet, hk, h']
    · simp [dictInsert, dictGet, hk, ih]

theorem rankingLoop_players (statsOf : String → Option PlayerStats) (now : Int)
    (l : List String) (db : DiscoveryDB) :
    (rankingLoop statsOf now l db).1 = l.filterMap statsOf := by
  induction l generalizing db with
  | nil => simp [rankingLoop]
  | cons u rest ih =>
    cases h : statsOf u with
    | none => simp [rankingLoop, h, List.filterMap_cons, ih]
    | some st => simp [rankingLoop, h, List.filterMap_cons, ih]

theorem rankingLoop_db_get (statsOf : String → Option PlayerStats) (now : Int)
    (l : List String) (db : DiscoveryDB) (k : String) :
    dictGet (rankingLoop statsOf now l db).2 k = dictGet db k ∨
      ∃ r, dictGet (rankingLoop statsOf now l db).2 k = some r ∧
        r.source = "ranking_api" ∧ r.discovered_at = now := by
  induction l generalizing db with
  | nil => left; simp [rankingLoop]
  | cons u rest ih =>
    cases h : statsOf u with
    | none => simpa [rankingLoop, h] using ih db
    | some st =>
      simp only [rankingLoop, h]
      rcases ih (dictInsert db (pyLower u) ⟨u, now, "ranking_api"⟩) with h1 | h1
      · by_cases hk : k = pyLower u
        · right
          subst hk
          rw [h1, dictGet_dictInsert_self]
          exact ⟨_, rfl, rfl, rfl⟩
        · left
          rw [h1, dictGet_dictInsert_ne _ _ _ _ hk]
      · right; exact h1

theorem rankingLoop_db_mem (statsOf : String → Option PlayerStats) (now : Int)
    (u : String) (hs : (statsOf u).isSome) :
    ∀ (l : List String) (db : DiscoveryDB), u ∈ l →
      ∃ r, dictGet (rankingLoop statsOf now l db).2 (pyLower u) = some r ∧
        r.source = "ranking_api" ∧ r.discovered_at = now := by
  intro l
  induction l with
  | nil => intro db hu; cases hu
  | cons v rest ih =>
    intro db hu
    rcases List.mem_cons.mp hu with rfl | hmem
    · cases h : statsOf u with
      | none => rw [h] at hs; cases hs
      | some st =>
        simp only [rankingLoop, h]
        rcases rankingLoop_db_get statsOf now rest
            (dictInsert db (pyLower u) ⟨u, now, "ranking_api"⟩) (pyLower u) with h1 | h1
        · rw [h1, dictGet_dictInsert_self]
          exact ⟨_, rfl, rfl, rfl⟩
        · exact h1
    · cases h : statsOf v with
      | none => simp only [rankingLoop, h]; exact ih db hmem
      | some st => simp only [rankingLoop, h]; exact ih _ hmem

theorem rankingLoop_congr (f g : String → Option PlayerStats) (now : Int)
    (l : List String) (db : DiscoveryDB) (h : ∀ u ∈ l, f u = g u) :
    rankingLoop f now l db = rankingLoop g now l db := by
  induction l generalizing db with
  | nil => rfl
  | cons u rest ih =>
    have hu : f u = g u := h u (List.mem_cons_self u rest)
    have hrest : ∀ v ∈ rest, f v = g v := fun v hv => h v (List.mem_cons_of_mem u hv)
    cases hg : g u with
    | none => simp only [rankingLoop, hu, hg]; exact ih _ hrest
    | some st => simp only [rankingLoop, hu, hg]; rw [ih _ hrest]

/-- **C5**.  `fetch_top_players` resolves stats for only the first 5 feed
entries: its player list is exactly `filterMap` of the Stats Fetcher over
`data[:5]` (feed order, no re-sort), every resolved entry leaves a
Discovery Ledger record with source `"ranking_api"` (the code's tag for
the spec's `ranking` source) and the current timestamp at its lower-cased
username, and the result is unchanged by any modification of the Stats
Fetcher outside the first 5 names. -/
theorem ranking_fetcher_first5 (statsOf : String → Option PlayerStats)
    (now : Int) (data : List String) (db : DiscoveryDB) :
    (fetch_top_players statsOf now (some data) db).1 =
        (data.take 5).filterMap statsOf
    ∧ (∀ u ∈ data.take 5, (statsOf u).isSome →
        ∃ r, dictGet (fetch_top_players statsOf now (some data) db).2
              (pyLower u) = some r ∧
          r.source = "ranking_api" ∧ r.discovered_at = now)
    ∧ (∀ g : String → Option PlayerStats, (∀ u ∈ data.take 5, g u = statsOf u) →
        fetch_top_players g now (some data) db =
          fetch_top_players statsOf now (some data) db) := by
  refine ⟨rankingLoop_players statsOf now (data.take 5) db, ?_, ?_⟩
  · intro u hu hs
    exact rankingLoop_db_mem statsOf now u hs (data.take 5) db hu
  · intro g hg
    exact rankingLoop_congr g statsOf now (data.take 5) db hg

/-- Witness for `ranking_fetcher_first5` on the feed
`["A","B","C","D","E","F"]`: the unresolvable `"B"` is skipped, `"A"` is
recorded with source `"ranking_api"`, and changing the Stats Fetcher at
`"F"` (beyond the first 5) does not change the result. -/
theorem ranking_fetcher_first5_witness :
    (fetch_top_players c5api 7 (some ["A", "B", "C", "D", "E", "F"]) []).1 =
        (["A", "B", "C", "D", "E", "F"].take 5).filterMap c5api
    ∧ (∃ r, dictGet (fetch_top_players c5api 7
            (some ["A", "B", "C", "D", "E", "F"]) []).2 (pyLower "A") = some r ∧
        r.source = "ranking_api" ∧ r.discovered_at = 7)
    ∧ fetch_top_players c5apiAlt 7 (some ["A", "B", "C", "D", "E", "F"]) [] =
        fetch_top_players c5api 7 (some ["A", "B", "C", "D", "E", "F"]) [] := by
  refine ⟨(ranking_fetcher_first5 c5api 7 ["A", "B", "C", "D", "E", "F"] []).1,
    (ranking_fetcher_first5 c5api 7 ["A", "B", "C", "D", "E", "F"] []).2.1
      "A" (by decide) (by decide),
    (ranking_fetcher_first5 c5api 7 ["A", "B", "C", "D", "E", "F"] []).2.2
      c5apiAlt (by decide)⟩

/-- **C8**.  If the roster fetch fails entirely (`fetch_clan_members`
degrades a failed roster response to `[]`, so the pipeline sees an empty
roster) or an unhandled exception occurs anywhere in the pipeline (the
`Except.error` outcome of the `try` body), `get_clan_activities` returns
an empty activity list with `has_next = false` instead of propagating an
error. -/
theorem clan_activities_degrade (parseTs : String → Option Int) (now : Int)
    (actResp : String → Option (List RawActivity)) (tstr : String)
    (page limit : Int) (hp : 1 ≤ page) (hl : 0 ≤ limit) :
    ((get_clan_activities limit (Except.ok (clanActivitiesPipeline parseTs now
          actResp (fetch_clan_members none tstr) page limit))).activities = []
      ∧ (get_clan_activities limit (Except.ok (clanActivitiesPipeline parseTs now
          actResp (fetch_clan_members none tstr) page limit))).has_next = false)
    ∧ (∀ err : String,
        (get_clan_activities limit (Except.error err)).activities = []
          ∧ (get_clan_activities limit (Except.error err)).has_next = false) := by
  have hnn : ¬ ((page - 1) * limit + limit < (0 : Int)) := by
    have h1 : (0 : Int) ≤ (page - 1) * limit := mul_nonneg (by omega) hl
    omega
  refine ⟨⟨?_, ?_⟩, fun err => ⟨rfl, rfl⟩⟩
  · simp [get_clan_activities, clanActivitiesPipeline, fetch_clan_members,
      batchesOf20, sortDescBy, pySort, pySlice]
  · simp [get_clan_activities, clanActivitiesPipeline, fetch_clan_members,
      batchesOf20, sortDescBy, pySort, pySlice, hnn]

/-- Witness for `clan_activities_degrade` at `page = 1`, `limit = 10`. -/
theorem clan_activities_degrade_witness :
    ((get_clan_activities 10 (Except.ok (clanActivitiesPipeline (fun _ => none) 0
          (fun _ => none) (fetch_clan_members none "t") 1 10))).activities = []
      ∧ (get_clan_activities 10 (Except.ok (clanActivitiesPipeline (fun _ => none) 0
          (fun _ => none) (fetch_clan_members none "t") 1 10))).has_next = false)
    ∧ ((get_clan_activities 10 (Except.error "boom")).activities = []
        ∧ (get_clan_activities 10 (Except.error "boom")).has_next = false) := by
  refine ⟨(clan_activities_degrade (fun _ => none) 0 (fun _ => none) "t" 1 10
      (by decide) (by decide)).1,
    (clan_activities_degrade (fun _ => none) 0 (fun _ => none) "t" 1 10
      (by decide) (by decide)).2 "boom"⟩

theorem pySliceIdx_nonneg (len : Nat) (i : Int) (h : 0 ≤ i) :
    pySliceIdx len i = min i.toNat len := by
  simp [pySliceIdx, not_lt.mpr h]

theorem pySlice_length (l : List α) (s e : Int) (h0 : 0 ≤ s) (hse : s ≤ e)
    (hel : e ≤ (l.length : Int)) :
    ((pySlice l s e).length : Int) = e - s := by
  have hs' : pySliceIdx l.length s = s.toNat := by
    rw [pySliceIdx_nonneg _ _ h0]; omega
  have he' : pySliceIdx l.length e = e.toNat := by
    rw [pySliceIdx_nonneg _ _ (le_trans h0 hse)]; omega
  simp [pySlice, hs', he', List.length_take, List.length_drop]
  omega

theorem pySlice_empty_of_ge (l : List α) (s e : Int) (h0 : 0 ≤ s)
    (hs : (l.length : Int) ≤ s) : pySlice l s e = [] := by
  have hidx : pySliceIdx l.length s = l.length := by
    rw [pySliceIdx_nonneg _ _ h0]; omega
  simp [pySlice, hidx, List.drop_length]

/-- **C6**.  `get_global_hiscores` paginates the sorted merged list with
the 1-based slice `[(page-1)*limit : (page-1)*limit + limit]`; against a
40-element sorted list, page 1 with limit 15 returns elements `[0:15]`,
and page 3 with limit 15 returns elements `[30:40]` (10 elements) with
`has_next = false`. -/
theorem hiscores_pagination_slice :
    (∀ pyInt statsOf now rankingData searchResp db skill page limit,
      (get_global_hiscores pyInt statsOf now rankingData searchResp db skill
          page limit none).1.hiscores =
        hiscoresPaginate
          (sortDescBy (skillXp skill)
            (hiscoresMerged statsOf now rankingData db skill).1)
          page (if limit = 15 ∨ limit = 30 ∨ limit = 50 then limit else 15))
    ∧ (∀ sorted : List PlayerStats, sorted.length = 40 →
        hiscoresPaginate sorted 1 15 = sorted.take 15
        ∧ hiscoresPaginate sorted 3 15 = sorted.drop 30
        ∧ (hiscoresPaginate sorted 3 15).length = 10
        ∧ hiscoresHasNext (hiscoresPaginate sorted 3 15) 15 = false) := by
  constructor
  · intro pyInt statsOf now rankingData searchResp db skill page limit
    rfl
  · intro sorted hlen
    have h1 : hiscoresPaginate sorted 1 15 = sorted.take 15 := by
      show pySlice sorted ((1 - 1) * 15) ((1 - 1) * 15 + 15) = sorted.take 15
      norm_num [pySlice, pySliceIdx, hlen]
      decide
    have h3 : hiscoresPaginate sorted 3 15 = sorted.drop 30 := by
      show pySlice sorted ((3 - 1) * 15) ((3 - 1) * 15 + 15) = sorted.drop 30
      norm_num [pySlice, pySliceIdx, hlen]
      exact List.take_of_length_le (by simp [hlen])
    have hlen3 : (hiscoresPaginate sorted 3 15).length = 10 := by
      rw [h3]; simp [hlen]
    refine ⟨h1, h3, hlen3, ?_⟩
    simp [hiscoresHasNext, hlen3]

/-- Witness for `hiscores_pagination_slice` on a concrete 40-element
list. -/
theorem hiscores_pagination_slice_witness :
    (List.replicate 40 (⟨"x", []⟩ : PlayerStats)).length = 40
    ∧ hiscoresPaginate (List.replicate 40 (⟨"x", []⟩ : PlayerStats)) 1 15 =
        (List.replicate 40 (⟨"x", []⟩ : PlayerStats)).take 15
    ∧ hiscoresPaginate (List.replicate 40 (⟨"x", []⟩ : PlayerStats)) 3 15 =
        (List.replicate 40 (⟨"x", []⟩ : PlayerStats)).drop 30
    ∧ (hiscoresPaginate (List.replicate 40 (⟨"x", []⟩ : PlayerStats)) 3 15).length = 10
    ∧ hiscoresHasNext
        (hiscoresPaginate (List.replicate 40 (⟨"x", []⟩ : PlayerStats)) 3 15) 15 = false := by
  have h := (hiscores_pagination_slice).2
    (List.replicate 40 (⟨"x", []⟩ : PlayerStats)) (by simp)
  exact ⟨by simp, h.1, h.2.1, h.2.2.1, h.2.2.2⟩

/-- **C7**.  Both the merged-hiscores pagination and the clan-members
pagination report and use the requested limit exactly when it is one of
15, 30 or 50, and silently coerce any other value to 15; in particular a
requested limit of 7 yields effective limit 15 (and a 15-element first
page out of a 40-element roster). -/
theorem page_size_coercion :
    (∀ pyInt statsOf now rankingData searchResp db skill page limit search,
      (get_global_hiscores pyInt statsOf now rankingData searchResp db skill
          page limit search).1.limit =
        (if limit = 15 ∨ limit = 30 ∨ limit = 50 then limit else 15))
    ∧ (∀ rosterResp nowS page limit search sort_by,
      (get_clan_members_paginated rosterResp nowS page limit search
          sort_by).limit =
        (if limit = 15 ∨ limit = 30 ∨ limit = 50 then limit else 15))
    ∧ (∀ pyInt statsOf now rankingData searchResp db skill page limit,
      (get_global_hiscores pyInt statsOf now rankingData searchResp db skill
          page limit none).1.hiscores =
        hiscoresPaginate
          (sortDescBy (skillXp skill)
            (hiscoresMerged statsOf now rankingData db skill).1)
          page (if limit = 15 ∨ limit = 30 ∨ limit = 50 then limit else 15))
    ∧ (get_global_hiscores (fun _ => none) (fun _ => none) 0 none none []
        "overall" 1 7 none).1.limit = 15
    ∧ (membersPagination
        (List.replicate 40 (⟨"u", "Recruit", 1, 0, "t"⟩ : RosterMember))
        1 7 none "xp").limit = 15
    ∧ (membersPagination
        (List.replicate 40 (⟨"u", "Recruit", 1, 0, "t"⟩ : RosterMember))
        1 7 none "xp").members.length = 15 := by
  refine ⟨?_, ?_, ?_, by decide, by decide, by decide⟩
  · intro pyInt statsOf now rankingData searchResp db skill page limit search
    cases hs : pyTruthyStr search with
    | none => simp only [get_global_hiscores, hs]
    | some s =>
      cases hf : fetch_player_stats pyInt s searchResp with
      | none => simp only [get_global_hiscores, hs, hf]
      | some st => simp only [get_global_hiscores, hs, hf]
  · intro rosterResp nowS page limit search sort_by
    cases hs : pyTruthyStr search with
    | none => simp only [get_clan_members_paginated, membersPagination, hs]
    | some s => simp only [get_clan_members_paginated, membersPagination, hs]
  · intro pyInt statsOf now rankingData searchResp db skill page limit
    rfl

/-- **C10**.  In `get_global_hiscores` the returned `has_next` flag always
equals "number of returned players == effective limit" (in both the
search and the merge branch); consequently, when the merged list's length
is an exact multiple `k * L` of the limit, page `k` (the final full page)
reports `has_next = true` even though page `k+1` is empty, and a search
page (at most one player) always reports `has_next = false`. -/
theorem hiscores_has_next_policy :
    (∀ pyInt statsOf now rankingData searchResp db skill page limit search,
      (get_global_hiscores pyInt statsOf now rankingData searchResp db skill
          page limit search).1.has_next =
        hiscoresHasNext
          (get_global_hiscores pyInt statsOf now rankingData searchResp db
              skill page limit search).1.hiscores
          (get_global_hiscores pyInt statsOf now rankingData searchResp db
              skill page limit search).1.limit)
    ∧ (∀ (sorted : List PlayerStats) (k L : Int),
        (L = 15 ∨ L = 30 ∨ L = 50) → 1 ≤ k → (sorted.length : Int) = k * L →
        ((hiscoresPaginate sorted k L).length : Int) = L
        ∧ hiscoresHasNext (hiscoresPaginate sorted k L) L = true
        ∧ hiscoresPaginate sorted (k + 1) L = []
        ∧ hiscoresHasNext (hiscoresPaginate sorted (k + 1) L) L = false)
    ∧ (∀ pyInt statsOf now rankingData searchResp db skill page limit s,
        pyTruthyStr s ≠ none →
        (get_global_hiscores pyInt statsOf now rankingData searchResp db skill
            page limit s).1.hiscores.length ≤ 1
        ∧ (get_global_hiscores pyInt statsOf now rankingData searchResp db
            skill page limit s).1.has_next = false) := by
  refine ⟨?_, ?_, ?_⟩
  · intro pyInt statsOf now rankingData searchResp db skill page limit search
    cases hs : pyTruthyStr search with
    | none => simp only [get_global_hiscores, hs]
    | some s =>
      cases hf : fetch_player_stats pyInt s searchResp with
      | none => simp only [get_global_hiscores, hs, hf]
      | some st => simp only [get_global_hiscores, hs, hf]
  · intro sorted k L hL hk hlen
    have hL0 : (0 : Int) < L := by rcases hL with h | h | h <;> omega
    have hs0 : (0 : Int) ≤ (k - 1) * L := mul_nonneg (by omega) hL0.le
    have hring : (k - 1) * L + L = k * L := by ring
    have hfull : ((hiscoresPaginate sorted k L).length : Int) = L := by
      show ((pySlice sorted ((k - 1) * L) ((k - 1) * L + L)).length : Int) = L
      rw [pySlice_length sorted _ _ hs0 (by omega) (by omega)]
      ring
    have hnext : hiscoresPaginate sorted (k + 1) L = [] := by
      show pySlice sorted ((k + 1 - 1) * L) ((k + 1 - 1) * L + L) = []
      have he : (k + 1 - 1) * L = k * L := by ring
      rw [he]
      exact pySlice_empty_of_ge sorted _ _ (by positivity) (by omega)
    refine ⟨hfull, ?_, hnext, ?_⟩
    · simp only [hiscoresHasNext]
      rw [hfull]
      simp
    · rw [hnext]
      simp only [hiscoresHasNext]
      simp
      omega
  · intro pyInt statsOf now rankingData searchResp db skill page limit s hs
    cases hst : pyTruthyStr s with
    | none => exact absurd hst hs
    | some s' =>
      have hLcase : ∀ x ∈ ([15, 30, 50] : List Int), ((1 : Int) == x) = false ∧
          ((0 : Int) == x) = false := by decide
      cases hf : fetch_player_stats pyInt s' searchResp with
      | none =>
        refine ⟨by simp [get_global_hiscores, hst, hf], ?_⟩
        simp only [get_global_hiscores, hst, hf, hiscoresHasNext]
        by_cases hc : limit = 15 ∨ limit = 30 ∨ limit = 50
        · rcases hc with h | h | h <;> simp [h]
        · simp [hc]
      | some st =>
        refine ⟨by simp [get_global_hiscores, hst, hf], ?_⟩
        simp only [get_global_hiscores, hst, hf, hiscoresHasNext]
        by_cases hc : limit = 15 ∨ limit = 30 ∨ limit = 50
        · rcases hc with h | h | h <;> simp [h]
        · simp [hc]

/-- Witness for `hiscores_has_next_policy`: a 30-element list with
`limit = 15` (exact multiple) reports `has_next = true` on its final full
page 2 while page 3 is empty, and a search request reports
`has_next = false`. -/
theorem hiscores_has_next_policy_witness :
    (((hiscoresPaginate (List.replicate 30 (⟨"x", []⟩ : PlayerStats)) 2 15).length : Int) = 15
      ∧ hiscoresHasNext
          (hiscoresPaginate (List.replicate 30 (⟨"x", []⟩ : PlayerStats)) 2 15) 15 = true
      ∧ hiscoresPaginate (List.replicate 30 (⟨"x", []⟩ : PlayerStats)) (2 + 1) 15 = []
      ∧ hiscoresHasNext
          (hiscoresPaginate (List.replicate 30 (⟨"x", []⟩ : PlayerStats)) (2 + 1) 15) 15 = false)
    ∧ ((get_global_hiscores (fun _ => none) (fun _ => none) 0 none none []
          "overall" 1 15 (some "q")).1.hiscores.length ≤ 1
        ∧ (get_global_hiscores (fun _ => none) (fun _ => none) 0 none none []
            "overall" 1 15 (some "q")).1.has_next = false) := by
  exact ⟨hiscores_has_next_policy.2.1 (List.replicate 30 ⟨"x", []⟩) 2 15
      (by decide) (by decide) (by decide),
    hiscores_has_next_policy.2.2 (fun _ => none) (fun _ => none) 0 none none []
      "overall" 1 15 (some "q") (by decide)⟩

theorem pyInsert_perm (lt : α → α → Bool) (x : α) (l : List α) :
    (pyInsert lt x l).Perm (x :: l) := by
  induction l with
  | nil => exact List.Perm.refl _
  | cons y rest ih =>
    by_cases h : lt y x
    · simp only [pyInsert, h, if_true]
      exact (ih.cons y).trans (List.Perm.swap x y rest)
    · simp only [pyInsert, h, if_false]
      exact List.Perm.refl _

theorem pySort_perm (lt : α → α → Bool) (l : List α) :
    (pySort lt l).Perm l := by
  induction l with
  | nil => exact List.Perm.refl _
  | cons x rest ih =>
    exact (pyInsert_perm lt x (pySort lt rest)).trans (ih.cons x)

theorem mem_pyInsert (lt : α → α → Bool) (x z : α) (l : List α) :
    z ∈ pyInsert lt x l ↔ z = x ∨ z ∈ l := by
  rw [(pyInsert_perm lt x l).mem_iff, List.mem_cons]

theorem filter_pyInsert_pos (lt : α → α → Bool) (p : α → Bool) (x : α)
    (l : List α) (hx : p x = true) (hskip : ∀ y, lt y x = true → p y = false) :
    (pyInsert lt x l).filter p = x :: l.filter p := by
  induction l with
  | nil => simp [pyInsert, List.filter, hx]
  | cons y rest ih =>
    by_cases h : lt y x
    · have hy : p y = false := hskip y h
      simp [pyInsert, h, List.filter, hy, ih]
    · simp [pyInsert, h, List.filter, hx]

theorem filter_pyInsert_neg (lt : α → α → Bool) (p : α → Bool) (x : α)
    (l : List α) (hx : p x = false) :
    (pyInsert lt x l).filter p = l.filter p := by
  induction l with
  | nil => simp [pyInsert, List.filter, hx]
  | cons y rest ih =>
    by_cases h : lt y x
    · simp only [pyInsert, h, if_true]
      cases hy : p y <;> simp [List.filter, hy, ih]
    · simp [pyInsert, h, List.filter, hx]

theorem filter_pySort (lt : α → α → Bool) (p : α → Bool) (l : List α)
    (H : ∀ x y, p x = true → lt y x = true → p y = false) :
    (pySort lt l).filter p = l.filter p := by
  induction l with
  | nil => rfl
  | cons x rest ih =>
    show (pyInsert lt x (pySort lt rest)).filter p = (x :: rest).filter p
    cases hx : p x
    · rw [filter_pyInsert_neg lt p x _ hx]
      simp [List.filter, hx, ih]
    · rw [filter_pyInsert_pos lt p x _ hx (fun y hy => H x y hx hy)]
      simp [List.filter, hx, ih]

theorem pyInsert_pairwise (lt : α → α → Bool)
    (htrans : ∀ a b c, lt b a = false → lt c b = false → lt c a = false)
    (hasym : ∀ a b, lt a b = true → lt b a = false) (x : α) (l : List α)
    (hl : l.Pairwise (fun a b => lt b a = false)) :
    (pyInsert lt x l).Pairwise (fun a b => lt b a = false) := by
  induction l with
  | nil => simp [pyInsert]
  | cons y rest ih =>
    rcases List.pairwise_cons.mp hl with ⟨hy, hrest⟩
    by_cases h : lt y x
    · simp only [pyInsert, h, if_true]
      refine List.pairwise_cons.mpr ⟨?_, ih hrest⟩
      intro z hz
      rcases (mem_pyInsert lt x z rest).mp hz with rfl | hz'
      · exact hasym y z h
      · exact hy z hz'
    · simp only [pyInsert, h, if_false]
      refine List.pairwise_cons.mpr ⟨?_, hl⟩
      intro z hz
      rcases List.mem_cons.mp hz with rfl | hz'
      · exact eq_false_of_ne_true h
      · exact htrans x y z (eq_false_of_ne_true h) (hy z hz')

theorem pySort_pairwise (lt : α → α → Bool)
    (htrans : ∀ a b c, lt b a = false → lt c b = false → lt c a = false)
    (hasym : ∀ a b, lt a b = true → lt b a = false) (l : List α) :
    (pySort lt l).Pairwise (fun a b => lt b a = false) := by
  induction l with
  | nil => simp [pySort]
  | cons x rest ih => exact pyInsert_pairwise lt htrans hasym x _ ih

/-- **C3**.  The Merge Engine's sort (`sortDescBy`, the model of
`all_players.sort(key=..., reverse=True)` at main.py line 338) is a
permutation, sorted by the target skill's xp descending, and stable:
elements with any fixed key value keep their relative input order
(filtering by a key value commutes with the sort).  In particular, for
ranking players A, B, C with attack xp 100, 300, 200 and discovered
player D with attack xp 250, the merged sorted hiscores order is
B, D, C, A. -/
theorem merge_sort_desc_stable :
    (∀ (key : PlayerStats → Int) (l : List PlayerStats),
      (sortDescBy key l).Perm l
      ∧ (sortDescBy key l).Pairwise (fun a b => key b ≤ key a)
      ∧ (∀ v : Int, (sortDescBy key l).filter (fun x => key x == v) =
          l.filter (fun x => key x == v)))
    ∧ ((get_global_hiscores (fun _ => none) c3api 0 (some ["A", "B", "C"])
          none c3db "attack" 1 15 none).1.hiscores.map PlayerStats.username =
        ["B", "D", "C", "A"]) := by
  constructor
  · intro key l
    refine ⟨pySort_perm _ l, ?_, ?_⟩
    · have h := pySort_pairwise (fun a b => decide (key b < key a))
        (fun a b c hba hcb => by
          simp only [decide_eq_false_iff_not, not_lt] at hba hcb ⊢
          omega)
        (fun a b hab => by
          simp only [decide_eq_true_eq] at hab
          simp only [decide_eq_false_iff_not, not_lt]
          omega) l
      exact h.imp (fun {a b} hab => by
        simpa [decide_eq_false_iff_not, not_lt] using hab)
    · intro v
      exact filter_pySort _ _ l (fun x y hx hy => by
        simp only [beq_iff_eq] at hx ⊢
        simp only [decide_eq_true_eq] at hy
        simp only [beq_eq_false_iff_ne]
        omega)
  · decide

theorem keys_dictInsert (d : List (String × α)) (k : String) (v : α) :
    (dictInsert d k v).map Prod.fst =
      if k ∈ d.map Prod.fst then d.map Prod.fst
      else d.map Prod.fst ++ [k] := by
  induction d with
  | nil => simp [dictInsert]
  | cons kv rest ih =>
    by_cases h : kv.1 = k
    · simp [dictInsert, h]
    · have h' : ¬ k = kv.1 := fun e => h e.symm
      by_cases hm : k ∈ rest.map Prod.fst <;>
        simp [dictInsert, h, h', hm, ih]

theorem keys_dictInsert_nodup (d : List (String × α)) (k : String) (v : α)
    (hd : (d.map Prod.fst).Nodup) :
    ((dictInsert d k v).map Prod.fst).Nodup := by
  rw [keys_dictInsert]
  by_cases hm : k ∈ d.map Prod.fst
  · simpa [hm] using hd
  · simp [hm, List.nodup_append, hd]

theorem mem_dictInsert_cases (d : List (String × α)) (k : String) (v : α)
    (kv' : String × α) (h : kv' ∈ dictInsert d k v) :
    kv' = (k, v) ∨ kv' ∈ d := by
  induction d with
  | nil => simpa [dictInsert] using h
  | cons kv rest ih =>
    by_cases hk : kv.1 = k
    · simp only [dictInsert, hk, if_true] at h
      rcases List.mem_cons.mp h with h | h
      · exact Or.inl h
      · exact Or.inr (List.mem_cons_of_mem _ h)
    · simp only [dictInsert, hk, if_false] at h
      rcases List.mem_cons.mp h with h | h
      · exact Or.inr (h ▸ List.mem_cons_self _ _)
      · rcases ih h with h' | h'
        · exact Or.inl h'
        · exact Or.inr (List.mem_cons_of_mem _ h')

theorem rankingLoop_db_normalized (statsOf : String → Option PlayerStats)
    (now : Int) :
    ∀ (l : List String) (db : DiscoveryDB), ledgerNormalized db →
      ledgerNormalized (rankingLoop statsOf now l db).2 := by
  intro l
  induction l with
  | nil => intro db hdb; exact hdb
  | cons u rest ih =>
    intro db hdb
    cases h : statsOf u with
    | none => simp only [rankingLoop, h]; exact ih db hdb
    | some st =>
      simp only [rankingLoop, h]
      refine ih _ ⟨keys_dictInsert_nodup db _ _ hdb.1, ?_⟩
      intro kv hkv
      rcases mem_dictInsert_cases db _ _ kv hkv with rfl | hkv'
      · rfl
      · exact hdb.2 kv hkv'

theorem discoveredLoop_lowers (statsOf : String → Option PlayerStats)
    (skill : String) (topLowers : List String)
    (hcons : ∀ u st, statsOf u = some st → pyLower st.username = pyLower u) :
    ∀ db : DiscoveryDB, (∀ kv ∈ db, kv.1 = pyLower kv.2.username) →
      ((discoveredLoop statsOf skill topLowers db).map
          (fun p => pyLower p.username)).Sublist (db.map Prod.fst)
      ∧ ∀ p ∈ discoveredLoop statsOf skill topLowers db,
          topLowers.contains (pyLower p.username) = false := by
  intro db
  induction db with
  | nil =>
    intro _
    exact ⟨List.nil_sublist _, by simp [discoveredLoop]⟩
  | cons kv rest ih =>
    intro hn
    have hnrest : ∀ kv' ∈ rest, kv'.1 = pyLower kv'.2.username :=
      fun kv' h => hn kv' (List.mem_cons_of_mem _ h)
    have hkv : kv.1 = pyLower kv.2.username := hn kv (List.mem_cons_self _ _)
    by_cases hc : topLowers.contains kv.1 = true
    · simp only [discoveredLoop, hc, if_true]
      exact ⟨((ih hnrest).1).cons _, (ih hnrest).2⟩
    · have hc' : topLowers.contains kv.1 = false := eq_false_of_ne_true hc
      cases hst : statsOf kv.2.username with
      | none =>
        simp only [discoveredLoop, hc', Bool.false_eq_true, if_false, hst]
        exact ⟨((ih hnrest).1).cons _, (ih hnrest).2⟩
      | some st =>
        by_cases hs : (dictGet st.stats skill).isSome
        · simp only [discoveredLoop, hc', Bool.false_eq_true, if_false, hst,
            hs, if_true]
          have heq : pyLower st.username = kv.1 :=
            (hcons _ _ hst).trans hkv.symm
          constructor
          · simp only [List.map_cons, heq]
            exact ((ih hnrest).1).cons₂ _
          · intro p hp
            rcases List.mem_cons.mp hp with rfl | hp'
            · rw [heq]; exact hc'
            · exact (ih hnrest).2 p hp'
        · simp only [discoveredLoop, hc', Bool.false_eq_true, if_false, hst,
            hs, Bool.false_eq_true, if_false]
          exact ⟨((ih hnrest).1).cons _, (ih hnrest).2⟩

theorem filterMap_lowers (statsOf : String → Option PlayerStats)
    (hcons : ∀ u st, statsOf u = some st → pyLower st.username = pyLower u) :
    ∀ l : List String,
      (l.filterMap statsOf).map (fun p => pyLower p.username) =
        (l.filter (fun u => (statsOf u).isSome)).map pyLower := by
  intro l
  induction l with
  | nil => rfl
  | cons u rest ih =>
    cases h : statsOf u with
    | none => simp [List.filterMap_cons, List.filter_cons, h, ih]
    | some st =>
      simp [List.filterMap_cons, List.filter_cons, h, ih, hcons u st h]

/-- **C2** (amended).  The merged pre-pagination list of
`get_global_hiscores` contains no two entries with the same lower-cased
username, provided (i) the first five ranking-feed usernames are pairwise
distinct after lower-casing, (ii) the Discovery Ledger is normalized
(distinct keys, each key the lower-cased username of its record — the
spec's own stated invariant), and (iii) every Stats Fetcher result's
display username lower-cases to the lower-cased query. -/
theorem merged_no_dup_usernames (statsOf : String → Option PlayerStats)
    (now : Int) (data : List String) (db : DiscoveryDB) (skill : String)
    (hcons : ∀ u st, statsOf u = some st → pyLower st.username = pyLower u)
    (hdata : ((data.take 5).map pyLower).Nodup)
    (hdb : ledgerNormalized db) :
    nodupLowerNames (hiscoresMerged statsOf now (some data) db skill).1 := by
  have hplayers : (fetch_top_players statsOf now (some data) db).1 =
      (data.take 5).filterMap statsOf :=
    rankingLoop_players statsOf now (data.take 5) db
  have hdb1 : ledgerNormalized (fetch_top_players statsOf now (some data) db).2 :=
    rankingLoop_db_normalized statsOf now (data.take 5) db hdb
  unfold nodupLowerNames hiscoresMerged
  rw [List.map_append]
  have htopmap : (fetch_top_players statsOf now (some data) db).1.map
      (fun p => pyLower p.username) =
      ((data.take 5).filter (fun u => (statsOf u).isSome)).map pyLower := by
    rw [hplayers]; exact filterMap_lowers statsOf hcons _
  have htopnodup : ((fetch_top_players statsOf now (some data) db).1.map
      (fun p => pyLower p.username)).Nodup := by
    rw [htopmap]
    exact ((List.filter_sublist _).map pyLower).nodup hdata
  have hdisc := discoveredLoop_lowers statsOf skill
    ((fetch_top_players statsOf now (some data) db).1.map
      (fun p => pyLower p.username)) hcons
    (fetch_top_players statsOf now (some data) db).2 hdb1.2
  refine List.Nodup.append htopnodup (hdisc.1.nodup hdb1.1) ?_
  intro a ha hb
  rcases List.mem_map.mp hb with ⟨p, hp, rfl⟩
  exact absurd ha (by simpa using hdisc.2 p hp)

/-- **C2** counterexample to the claim as stated: when the ranking feed
returns the same name twice (`["A", "A"]`), `get_global_hiscores` resolves
both of the first-five entries and the merged pre-pagination list contains
two entries with the same lower-cased username — the dedup check only
guards the discovery side, never within the ranking result. -/
theorem merged_dup_usernames_cex :
    (hiscoresMerged c2api 0 (some ["A", "A"]) [] "overall").1.map
        (fun p => pyLower p.username) = ["a", "a"]
    ∧ ¬ nodupLowerNames (hiscoresMerged c2api 0 (some ["A", "A"]) [] "overall").1 := by
  constructor
  · decide
  · unfold nodupLowerNames
    decide

/-- Witness for `merged_no_dup_usernames`: distinct feed names `A`, `B`
and a normalized ledger holding `D` merge into a duplicate-free list. -/
theorem merged_no_dup_usernames_witness :
    ((["A", "B"].take 5).map pyLower).Nodup
    ∧ ledgerNormalized [("d", ⟨"D", 0, "search"⟩)]
    ∧ nodupLowerNames (hiscoresMerged c2wapi 0 (some ["A", "B"])
        [("d", ⟨"D", 0, "search"⟩)] "overall").1 := by
  refine ⟨by decide, ⟨by decide, by decide⟩, ?_⟩
  exact merged_no_dup_usernames c2wapi 0 ["A", "B"]
    [("d", ⟨"D", 0, "search"⟩)] "overall"
    (fun u st h => by cases h; rfl) (by decide) ⟨by decide, by decide⟩

theorem skillvaluesLoop_level_xp :
    ∀ (svs : List SkillValue) (acc : List (String × SkillRecord)),
      (∀ kv ∈ acc, 1 ≤ kv.2.level ∧ 0 ≤ kv.2.xp) →
      (∀ sv ∈ svs, 1 ≤ sv.level.getD 1 ∧ 0 ≤ sv.xp.getD 0) →
      ∀ kv ∈ skillvaluesLoop acc svs, 1 ≤ kv.2.level ∧ 0 ≤ kv.2.xp := by
  intro svs
  induction svs with
  | nil => intro acc hacc _ kv hkv; exact hacc kv hkv
  | cons sv rest ih =>
    intro acc hacc hsv
    cases hid : sv.id.bind rmSkillName with
    | none =>
      simp only [skillvaluesLoop, hid]
      exact ih acc hacc (fun s hs => hsv s (List.mem_cons_of_mem _ hs))
    | some nm =>
      simp only [skillvaluesLoop, hid]
      refine ih _ ?_ (fun s hs => hsv s (List.mem_cons_of_mem _ hs))
      intro kv hkv
      rcases mem_dictInsert_cases _ _ _ kv hkv with rfl | hkv'
      · exact hsv sv (List.mem_cons_self _ _)
      · exact hacc kv hkv'

theorem fillMissingSkills_level_xp :
    ∀ (names : List String) (acc : List (String × SkillRecord)),
      (∀ kv ∈ acc, 1 ≤ kv.2.level ∧ 0 ≤ kv.2.xp) →
      ∀ kv ∈ fillMissingSkills acc names, 1 ≤ kv.2.level ∧ 0 ≤ kv.2.xp := by
  intro names
  induction names with
  | nil => intro acc hacc kv hkv; exact hacc kv hkv
  | cons nm rest ih =>
    intro acc hacc
    cases hg : dictGet acc nm with
    | some v => simp only [fillMissingSkills, hg]; exact ih acc hacc
    | none =>
      simp only [fillMissingSkills, hg]
      refine ih _ ?_
      intro kv hkv
      rcases mem_dictInsert_cases _ _ _ kv hkv with rfl | hkv'
      · exact ⟨le_refl 1, le_refl 0⟩
      · exact hacc kv hkv'

theorem dictGet_skillvaluesLoop_absent :
    ∀ (svs : List SkillValue) (acc : List (String × SkillRecord)) (nm : String),
      (∀ sv ∈ svs, ∀ i, sv.id = some i → rmSkillName i ≠ some nm) →
      dictGet (skillvaluesLoop acc svs) nm = dictGet acc nm := by
  intro svs
  induction svs with
  | nil => intro acc nm _; rfl
  | cons sv rest ih =>
    intro acc nm habs
    cases hid : sv.id.bind rmSkillName with
    | none =>
      simp only [skillvaluesLoop, hid]
      exact ih acc nm (fun s hs => habs s (List.mem_cons_of_mem _ hs))
    | some nm' =>
      simp only [skillvaluesLoop, hid]
      have hne : nm ≠ nm' := by
        rcases Option.bind_eq_some.mp hid with ⟨i, hi, hmap⟩
        intro e
        exact habs sv (List.mem_cons_self _ _) i hi (e ▸ hmap)
      rw [ih _ nm (fun s hs => habs s (List.mem_cons_of_mem _ hs)),
        dictGet_dictInsert_ne _ _ _ _ hne]

theorem dictGet_fillMissingSkills_some :
    ∀ (names : List String) (acc : List (String × SkillRecord)) (nm : String)
      (v : SkillRecord), dictGet acc nm = some v →
      dictGet (fillMissingSkills acc names) nm = some v := by
  intro names
  induction names with
  | nil => intro acc nm v h; exact h
  | cons nm' rest ih =>
    intro acc nm v h
    cases hg : dictGet acc nm' with
    | some w => simp only [fillMissingSkills, hg]; exact ih acc nm v h
    | none =>
      simp only [fillMissingSkills, hg]
      have hne : nm ≠ nm' := fun e => by rw [e, hg] at h; cases h
      exact ih _ nm v (by rw [dictGet_dictInsert_ne _ _ _ _ hne]; exact h)

theorem dictGet_fillMissingSkills_mem :
    ∀ (names : List String) (acc : List (String × SkillRecord)) (nm : String),
      nm ∈ names → dictGet acc nm = none →
      dictGet (fillMissingSkills acc names) nm = some ⟨none, 1, 0⟩ := by
  intro names
  induction names with
  | nil => intro acc nm h; cases h
  | cons nm' rest ih =>
    intro acc nm hmem hnone
    by_cases he : nm' = nm
    · subst he
      simp only [fillMissingSkills, hnone]
      exact dictGet_fillMissingSkills_some rest _ nm' _
        (dictGet_dictInsert_self _ _ _)
    · have hmem' : nm ∈ rest := by
        rcases List.mem_cons.mp hmem with h | h
        · exact absurd h.symm he
        · exact h
      cases hg : dictGet acc nm' with
      | some w => simp only [fillMissingSkills, hg]; exact ih acc nm hmem' hnone
      | none =>
        simp only [fillMissingSkills, hg]
        refine ih _ nm hmem' ?_
        rw [dictGet_dictInsert_ne _ _ _ _ (fun e => he e.symm)]
        exact hnone

/-- **C9** (amended).  Every `PlayerStats` returned by a successful
`fetch_player_stats` call — with no assumption on the response beyond
success — has every catalog skill present in its stats dict, and any
skill absent from the source response is filled with the placeholder
`rank = none, level = 1, xp = 0`; the invariant `level ≥ 1 ∧ xp ≥ 0`
holds for all records provided the response's own values satisfy it
(`totalskill` present and at least 1, `totalxp` nonnegative, each
skillvalue's level/xp within bounds) — the code copies response values
verbatim and defaults a missing `totalskill` to 0. -/
theorem stats_records_normalized (pyInt : String → Option Int) (u : String)
    (data : RMProfile) (ps : PlayerStats)
    (hres : fetch_player_stats pyInt u (some data) = some ps) :
    (∀ nm ∈ all_skills, (dictGet ps.stats nm).isSome)
    ∧ (∀ nm ∈ all_skills,
        (∀ sv ∈ data.skillvalues, ∀ i, sv.id = some i → rmSkillName i ≠ some nm) →
        nm ≠ "overall" →
        dictGet ps.stats nm = some ⟨none, 1, 0⟩)
    ∧ ((∃ t, data.totalskill = some t ∧ 1 ≤ t) →
        0 ≤ data.totalxp.getD 0 →
        (∀ sv ∈ data.skillvalues, 1 ≤ sv.level.getD 1 ∧ 0 ≤ sv.xp.getD 0) →
        ∀ kv ∈ ps.stats, 1 ≤ kv.2.level ∧ 0 ≤ kv.2.xp) := by
  simp only [fetch_player_stats] at hres
  cases hE : data.hasError with
  | true => rw [hE] at hres; simp at hres
  | false =>
    rw [hE] at hres
    simp only [Bool.false_eq_true, if_false] at hres
    cases hOR : parseOverallRank pyInt data.rank with
    | none => rw [hOR] at hres; simp at hres
    | some orank =>
      rw [hOR] at hres
      simp only [Option.some.injEq] at hres
      subst hres
      refine ⟨?_, ?_, ?_⟩
      · intro nm hnm
        cases hg : dictGet (skillvaluesLoop [("overall",
            ⟨orank, data.totalskill.getD 0, data.totalxp.getD 0⟩)]
            data.skillvalues) nm with
        | some v =>
          rw [dictGet_fillMissingSkills_some all_skills _ nm v hg]; rfl
        | none =>
          rw [dictGet_fillMissingSkills_mem all_skills _ nm hnm hg]; rfl
      · intro nm hnm habs hne
        refine dictGet_fillMissingSkills_mem all_skills _ nm hnm ?_
        rw [dictGet_skillvaluesLoop_absent data.skillvalues _ nm habs]
        simp [dictGet, Ne.symm hne]
      · intro hts htx hsv
        have hacc0 : ∀ kv ∈ ([("overall",
            (⟨orank, data.totalskill.getD 0, data.totalxp.getD 0⟩ : SkillRecord))] :
              List (String × SkillRecord)), 1 ≤ kv.2.level ∧ 0 ≤ kv.2.xp := by
          intro kv hkv
          rcases List.mem_singleton.mp hkv with rfl
          rcases hts with ⟨t, ht, h1⟩
          rw [ht]
          exact ⟨h1, htx⟩
        exact fillMissingSkills_level_xp all_skills _
          (skillvaluesLoop_level_xp data.skillvalues _ hacc0 hsv)

/-- **C9** counterexample to the claim as stated: on a 200 response that
lacks `totalskill`, `fetch_player_stats` succeeds but stores the overall
record with `level = data.get('totalskill', 0) = 0`, violating
`level ≥ 1`. -/
theorem stats_level_invariant_cex :
    (fetch_player_stats (fun _ => none) "x" (some rEmptyProfile)).map
        statsLevelsOk = some false
    ∧ ((fetch_player_stats (fun _ => none) "x" (some rEmptyProfile)).bind
        (fun ps => dictGet ps.stats "overall")) =
      some ⟨none, 0, 0⟩ := by
  constructor
  · decide
  · decide

/-- Witness for `stats_records_normalized`: on the well-formed
`wProfile` all records satisfy the invariant, the absent skill `defence`
carries the placeholder and the present skill `attack` is covered; on
the malformed-but-successful `rEmptyProfile` the completeness and
placeholder conclusions still hold unconditionally. -/
theorem stats_records_normalized_witness :
    (∀ kv ∈ wPs.stats, 1 ≤ kv.2.level ∧ 0 ≤ kv.2.xp)
    ∧ dictGet wPs.stats "defence" = some ⟨none, 1, 0⟩
    ∧ (dictGet wPs.stats "attack").isSome
    ∧ dictGet rEmptyPs.stats "defence" = some ⟨none, 1, 0⟩
    ∧ (dictGet rEmptyPs.stats "overall").isSome := by
  have h := stats_records_normalized (fun _ => some 1234) "x" wProfile wPs
    (by decide)
  have h2 := stats_records_normalized (fun _ => none) "x" rEmptyProfile
    rEmptyPs (by decide)
  exact ⟨h.2.2 ⟨2000, rfl, by decide⟩ (by decide) (by decide),
    h.2.1 "defence" (by decide) (by decide) (by decide),
    h.1 "attack" (by decide),
    h2.2.1 "defence" (by decide) (by decide) (by decide),
    h2.1 "overall" (by decide)⟩
